import Mathlib

/-
Verification of the query-building layer of `ticketpy` (`ticketpy/query.py`).

The parameter-normalization and request-assembly code is embedded shallowly:
Python dicts become ordered association lists (Python dicts preserve insertion
order and have unique keys), Python values become the `Value` type below, and
the `ApiClient` collaborator is kept abstract (a search request is modelled as
the `(resource, params)` pair handed to `ApiClient._search`).
-/

namespace Ticketpy

/-- A Python value as it appears in a search-parameter mapping.  `Value.none`
is the Python `None` ("unset"); strings, integers and booleans cover the
legitimate (possibly falsy) parameter values the claims mention. -/
inductive Value where
  | none
  | str (s : String)
  | int (n : Int)
  | bool (b : Bool)
deriving DecidableEq, Repr

/-- Python truthiness (`bool(v)`) of a `Value`; `falsy v = true` means Python
would treat `v` as falsy (`None`, `0`, `""`, `False`). -/
def falsy : Value → Bool
  | Value.none => true
  | Value.str s => s == ""
  | Value.int n => n == 0
  | Value.bool b => !b

/-- A Python dict keyed by strings, as an insertion-ordered association list. -/
abbrev Dict := List (String × Value)

/-- `lookup? d k` is Python `d[k]` / `d.get(k)`: the value at the first
occurrence of key `k`. -/
def lookup? : Dict → String → Option Value
  | [], _ => Option.none
  | p :: rest, k => if p.1 = k then Option.some p.2 else lookup? rest k

/-- The list of keys of a dict. -/
def keys (d : Dict) : List String := d.map Prod.fst

/-- Python dicts have pairwise-distinct keys; every dict built by the source
code satisfies this. -/
def NodupKeys (d : Dict) : Prop := (keys d).Nodup

instance (d : Dict) : Decidable (NodupKeys d) := List.nodupDecidable (keys d)

/-- Python `del d[k]` (under `NodupKeys` the single entry for `k`). -/
def eraseD : Dict → String → Dict
  | [], _ => []
  | p :: rest, k => if p.1 = k then eraseD rest k else p :: eraseD rest k

/-- Python `d[k] = v`: overwrite in place if `k` is present, else append. -/
def insertD : Dict → String → Value → Dict
  | [], k, v => [(k, v)]
  | p :: rest, k, v => if p.1 = k then (k, v) :: eraseD rest k else p :: insertD rest k v

/-- One iteration of the loop in `BaseQuery._search_params`:
`if k in kwargs and k != v: kwargs[v] = kwargs[k]; del kwargs[k]`. -/
def renameStep (kwargs : Dict) (k w : String) : Dict :=
  match lookup? kwargs k with
  | Option.some v => if k = w then kwargs else eraseD (insertD kwargs w v) k
  | Option.none => kwargs

/-- The `for k, v in attr_map.items():` loop of `BaseQuery._search_params`,
parameterized by the rename table (iterated in insertion order). -/
def applyRenames (am : List (String × String)) (kwargs : Dict) : Dict :=
  am.foldl (fun kw p => renameStep kw p.1 p.2) kwargs

/-- The final comprehension of `BaseQuery._search_params`:
`{k: v for (k, v) in kwargs.items() if v is not None}`. -/
def dropNone : Dict → Dict
  | [] => []
  | p :: rest => if p.2 = Value.none then dropNone rest else p :: dropNone rest

/-- `BaseQuery._search_params` with the rename table as an explicit argument. -/
def searchParamsAux (am : List (String × String)) (kwargs : Dict) : Dict :=
  dropNone (applyRenames am kwargs)

/-- Modelled from the spec: the Rename Table `attr_map` is imported from
`ticketpy.model` (`ticketpy/model.py`), a file that is not among the sources
here.  The spec fixes it as a constant semantic-key → wire-key mapping in the
`venue_id` → `venueId` style (spec §3, §8 and glossary, matching the source
comment in `_search_params` saying that a passed `venue_id` becomes `venueId`),
covering the snake_case filter names accepted by the `find` signatures. -/
def attr_map : List (String × String) :=
  [("start_date_time", "startDateTime"),
   ("end_date_time", "endDateTime"),
   ("onsale_start_date_time", "onsaleStartDateTime"),
   ("onsale_end_date_time", "onsaleEndDateTime"),
   ("country_code", "countryCode"),
   ("state_code", "stateCode"),
   ("venue_id", "venueId"),
   ("attraction_id", "attractionId"),
   ("segment_id", "segmentId"),
   ("segment_name", "segmentName"),
   ("classification_name", "classificationName"),
   ("classification_id", "classificationId"),
   ("market_id", "marketId"),
   ("promoter_id", "promoterId"),
   ("dma_id", "dmaId"),
   ("include_tba", "includeTBA"),
   ("include_tbd", "includeTBD"),
   ("client_visibility", "clientVisibility"),
   ("include_test", "includeTest")]

/-- `BaseQuery._search_params(**kwargs)` (the static method uses the
module-level `attr_map`). -/
def search_params (kwargs : Dict) : Dict := searchParamsAux attr_map kwargs

/-- The `search_args = kwargs; search_args.update({...})` step of
`BaseQuery._get`: the seven universal parameters are written over the
caller-supplied kwargs, in the dict-literal order of the source. -/
def merge_args (kwargs : Dict) (keyword entity_id sort include_test page size locale : Value) : Dict :=
  insertD (insertD (insertD (insertD (insertD (insertD (insertD kwargs
    "keyword" keyword) "id" entity_id) "sort" sort) "include_test" include_test)
    "page" page) "size" size) "locale" locale

/-- The request `BaseQuery.__get` hands to `ApiClient._search`: the bound
resource path and the normalized parameter mapping. -/
structure SearchRequest where
  resource : String
  params : Dict
deriving DecidableEq, Repr

namespace BaseQuery

/-- `BaseQuery._get`: merge the universal parameters over `kwargs`, normalize
with `_search_params`, and hand the result to `ApiClient._search` for the
bound resource. -/
def _get (resource : String) (keyword entity_id sort include_test page size locale : Value)
    (kwargs : Dict) : SearchRequest :=
  ⟨resource, search_params (merge_args kwargs keyword entity_id sort include_test page size locale)⟩

end BaseQuery

/-- The seven resource query classes of `query.py`. -/
inductive QueryType where
  | events
  | venues
  | attractions
  | classifications
  | segments
  | genres
  | subgenres
deriving DecidableEq, Repr, Fintype

/-- The `resource` class attribute (resource path segment) of each query class. -/
def resource : QueryType → String
  | QueryType.events => "events"
  | QueryType.venues => "venues"
  | QueryType.attractions => "attractions"
  | QueryType.classifications => "classifications"
  | QueryType.segments => "classifications/segments"
  | QueryType.genres => "classifications/genres"
  | QueryType.subgenres => "classifications/subgenres"

/-- Which query classes define a `find` method.  From the source:
`EventQuery`, `VenueQuery`, `AttractionQuery` and `ClassificationQuery` each
define `find`; `SegmentQuery`, `GenreQuery` and `SubGenreQuery` contain only
`__init__`, and `BaseQuery` defines no `find` to inherit. -/
def definesFind : QueryType → Bool
  | QueryType.events => true
  | QueryType.venues => true
  | QueryType.attractions => true
  | QueryType.classifications => true
  | QueryType.segments => false
  | QueryType.genres => false
  | QueryType.subgenres => false

/-- `BaseQuery.by_id`: fetch by id through `ApiClient._get_id` for the bound
resource, then build the model with its `from_json`.  The client and the
model constructor are external collaborators, kept abstract. -/
def by_id {J M : Type} (q : QueryType) (get_by_id : String → String → J)
    (from_json : J → M) (entity_id : String) : M :=
  from_json (get_by_id (resource q) entity_id)

/-- `AttractionQuery.find`: forwards into `BaseQuery._get` with resource
`attractions`, passing `source` (then the open-ended kwargs) through the
kwargs channel, in the call-site keyword order of the source. -/
def AttractionQuery.find (sort keyword attraction_id source include_test page size locale : Value)
    (kwargs : Dict) : SearchRequest :=
  BaseQuery._get "attractions" keyword attraction_id sort include_test page size locale
    (("source", source) :: kwargs)

/-- `ClassificationQuery.find`: forwards into `BaseQuery._get` with resource
`classifications`. -/
def ClassificationQuery.find (sort keyword classification_id source include_test page size locale : Value)
    (kwargs : Dict) : SearchRequest :=
  BaseQuery._get "classifications" keyword classification_id sort include_test page size locale
    (("source", source) :: kwargs)

/-- `VenueQuery.find`: forwards into `BaseQuery._get` with resource `venues`,
passing `state_code`, `country_code` and `source` through the kwargs channel. -/
def VenueQuery.find (keyword venue_id sort state_code country_code source include_test page size locale : Value)
    (kwargs : Dict) : SearchRequest :=
  BaseQuery._get "venues" keyword venue_id sort include_test page size locale
    (("state_code", state_code) :: ("country_code", country_code) :: ("source", source) :: kwargs)

/-- `EventQuery.find`: forwards into `BaseQuery._get` with resource `events`;
the event-specific filters travel through the kwargs channel in the call-site
keyword order of the source (lines 213–227 of `query.py`). -/
def EventQuery.find (sort latlong radius unit start_date_time end_date_time
    onsale_start_date_time onsale_end_date_time country_code state_code
    venue_id attraction_id segment_id segment_name classification_name
    classification_id market_id promoter_id dma_id include_tba include_tbd
    client_visibility keyword event_id source include_test page size locale : Value)
    (kwargs : Dict) : SearchRequest :=
  BaseQuery._get "events" keyword event_id sort include_test page size locale
    (("latlong", latlong) :: ("radius", radius) :: ("unit", unit) ::
     ("start_date_time", start_date_time) :: ("end_date_time", end_date_time) ::
     ("onsale_start_date_time", onsale_start_date_time) ::
     ("onsale_end_date_time", onsale_end_date_time) ::
     ("country_code", country_code) :: ("state_code", state_code) ::
     ("venue_id", venue_id) :: ("attraction_id", attraction_id) ::
     ("segment_id", segment_id) :: ("segment_name", segment_name) ::
     ("classification_name", classification_name) ::
     ("classification_id", classification_id) :: ("market_id", market_id) ::
     ("promoter_id", promoter_id) :: ("dma_id", dma_id) ::
     ("include_tba", include_tba) :: ("include_tbd", include_tbd) ::
     ("source", source) :: ("client_visibility", client_visibility) :: kwargs)

/-- An argument to `EventQuery.by_location` before the `str()` coercion:
a string, a Python int, or a Python float whose `str()` is a plain decimal
(`dec i f` stands for the literal `i.f`, e.g. `dec 33 7` for `33.7`). -/
inductive StrArg where
  | s (v : String)
  | int (n : Int)
  | dec (ip : Int) (fp : Nat)
deriving DecidableEq, Repr

/-- Python `str()` on a `StrArg`. -/
def pyStr : StrArg → String
  | StrArg.s v => v
  | StrArg.int n => toString n
  | StrArg.dec ip fp => toString ip ++ "." ++ toString fp

/-- `EventQuery.by_location`: builds `latlong` as
`"{lat},{long}".format(lat=str(latitude), long=str(longitude))`, coerces
`radius` with `str()`, and delegates to `EventQuery.find` (every other find
parameter is left at its `None` default; `sort` is passed along). -/
def EventQuery.by_location (latitude longitude radius : StrArg) (unit sort : Value)
    (kwargs : Dict) : SearchRequest :=
  EventQuery.find sort
    (Value.str (pyStr latitude ++ "," ++ pyStr longitude))
    (Value.str (pyStr radius)) unit
    Value.none Value.none Value.none Value.none Value.none
    Value.none Value.none Value.none Value.none Value.none
    Value.none Value.none Value.none Value.none Value.none
    Value.none Value.none Value.none Value.none Value.none
    Value.none Value.none Value.none Value.none Value.none
    kwargs

/-- `am` never renames the key `x` away and never writes the value of another key
into `x` (identity entries are skipped by the loop guard `k != v`). -/
def untouchedB (am : List (String × String)) (x : String) : Bool :=
  am.all (fun p => p.1 == p.2 || (p.1 != x && p.2 != x))

/-- No non-identity entry of `am` writes into the key `x`. -/
def notWrittenB (am : List (String × String)) (x : String) : Bool :=
  am.all (fun p => p.1 == p.2 || p.2 != x)

/-- The key `x` occurs nowhere in the rename table `am`, neither as a
semantic key nor as a wire key. -/
def notInTable (am : List (String × String)) (x : String) : Bool :=
  am.all (fun p => p.1 != x && p.2 != x)

/-- After the entry `(K, W)` has fired, the rest of the table must neither
write into `K`, rename `W` away, nor write into `W` (identity entries are
inert). -/
def afterRenameOk : List (String × String) → String → String → Bool
  | [], _, _ => true
  | p :: rest, K, W =>
      (p.1 == p.2 || (p.2 != K && p.1 != W && p.2 != W)) && afterRenameOk rest K W

/-- The table contains the entry `(K, W)`; before it no entry touches `K`,
and after it the `afterRenameOk` conditions hold. -/
def renameOkFor : List (String × String) → String → String → Bool
  | [], _, _ => false
  | p :: rest, K, W =>
      if p.1 = K ∧ p.2 = W then afterRenameOk rest K W
      else (p.1 == p.2 || (p.1 != K && p.2 != K)) && renameOkFor rest K W

theorem keys_cons (p : String × Value) (rest : Dict) : keys (p :: rest) = p.1 :: keys rest := rfl

theorem nodupKeys_cons {p : String × Value} {rest : Dict} :
    NodupKeys (p :: rest) ↔ p.1 ∉ keys rest ∧ NodupKeys rest := by
  simp [NodupKeys, keys_cons, List.nodup_cons]

theorem lookup_eraseD (d : Dict) (k x : String) :
    lookup? (eraseD d k) x = if x = k then Option.none else lookup? d x := by
  induction d with
  | nil => simp [eraseD, lookup?]
  | cons p rest ih =>
    by_cases hpk : p.1 = k
    · rw [show eraseD (p :: rest) k = eraseD rest k by simp [eraseD, hpk], ih]
      by_cases hxk : x = k
      · simp [hxk]
      · have hpx : ¬ p.1 = x := fun h => hxk (h ▸ hpk)
        simp [lookup?, hxk, hpx]
    · rw [show eraseD (p :: rest) k = p :: eraseD rest k by simp [eraseD, hpk]]
      by_cases hpx : p.1 = x
      · have hxk : ¬ x = k := fun h => hpk (by rw [hpx, h])
        simp [lookup?, hpx, hxk]
      · simp [lookup?, hpx, ih]

theorem lookup_insertD (d : Dict) (k x : String) (v : Value) :
    lookup? (insertD d k v) x = if x = k then Option.some v else lookup? d x := by
  induction d with
  | nil =>
    by_cases hxk : x = k
    · simp [insertD, lookup?, hxk]
    · simp [insertD, lookup?, hxk, Ne.symm hxk]
  | cons p rest ih =>
    by_cases hpk : p.1 = k
    · rw [show insertD (p :: rest) k v = (k, v) :: eraseD rest k by simp [insertD, hpk]]
      by_cases hxk : x = k
      · simp [lookup?, hxk]
      · have hkx : ¬ k = x := fun h => hxk h.symm
        have hpx : ¬ p.1 = x := fun h => hkx (hpk ▸ h)
        simp [lookup?, hkx, hxk, hpx, lookup_eraseD]
    · rw [show insertD (p :: rest) k v = p :: insertD rest k v by simp [insertD, hpk]]
      by_cases hpx : p.1 = x
      · have hxk : ¬ x = k := fun h => hpk (by rw [hpx, h])
        simp [lookup?, hpx, hxk]
      · simp [lookup?, hpx, ih]

theorem lookup_eq_none_of_not_mem_keys {d : Dict} {x : String} (h : x ∉ keys d) :
    lookup? d x = Option.none := by
  induction d with
  | nil => rfl
  | cons p rest ih =>
    rw [keys_cons, List.mem_cons, not_or] at h
    have hpx : ¬ p.1 = x := fun he => h.1 he.symm
    rw [show lookup? (p :: rest) x = if p.1 = x then Option.some p.2 else lookup? rest x from rfl,
      if_neg hpx]
    exact ih h.2

theorem keys_eraseD_sublist (d : Dict) (k : String) : (keys (eraseD d k)).Sublist (keys d) := by
  induction d with
  | nil => simp [eraseD, keys]
  | cons p rest ih =>
    by_cases hpk : p.1 = k
    · rw [show eraseD (p :: rest) k = eraseD rest k by simp [eraseD, hpk], keys_cons]
      exact ih.trans (List.sublist_cons_self _ _)
    · rw [show eraseD (p :: rest) k = p :: eraseD rest k by simp [eraseD, hpk], keys_cons, keys_cons]
      exact ih.cons₂ _

theorem not_mem_keys_eraseD (d : Dict) (k : String) : k ∉ keys (eraseD d k) := by
  induction d with
  | nil => simp [eraseD, keys]
  | cons p rest ih =>
    by_cases hpk : p.1 = k
    · rw [show eraseD (p :: rest) k = eraseD rest k by simp [eraseD, hpk]]
      exact ih
    · rw [show eraseD (p :: rest) k = p :: eraseD rest k by simp [eraseD, hpk], keys_cons,
        List.mem_cons, not_or]
      exact ⟨fun h => hpk h.symm, ih⟩

theorem mem_keys_insertD {d : Dict} {k x : String} {v : Value}
    (h : x ∈ keys (insertD d k v)) : x = k ∨ x ∈ keys d := by
  induction d with
  | nil => simpa [insertD, keys] using h
  | cons p rest ih =>
    by_cases hpk : p.1 = k
    · rw [show insertD (p :: rest) k v = (k, v) :: eraseD rest k by simp [insertD, hpk],
        keys_cons, List.mem_cons] at h
      rcases h with h | h
      · exact Or.inl h
      · exact Or.inr (by rw [keys_cons, List.mem_cons]; exact Or.inr ((keys_eraseD_sublist rest k).subset h))
    · rw [show insertD (p :: rest) k v = p :: insertD rest k v by simp [insertD, hpk],
        keys_cons, List.mem_cons] at h
      rcases h with h | h
      · exact Or.inr (by rw [keys_cons, List.mem_cons]; exact Or.inl h)
      · rcases ih h with h1 | h1
        · exact Or.inl h1
        · exact Or.inr (by rw [keys_cons, List.mem_cons]; exact Or.inr h1)

theorem nodupKeys_eraseD {d : Dict} (k : String) (h : NodupKeys d) : NodupKeys (eraseD d k) :=
  (keys_eraseD_sublist d k).nodup h

theorem nodupKeys_insertD {d : Dict} (k : String) (v : Value) (h : NodupKeys d) :
    NodupKeys (insertD d k v) := by
  induction d with
  | nil => simp [insertD, NodupKeys, keys]
  | cons p rest ih =>
    rw [nodupKeys_cons] at h
    by_cases hpk : p.1 = k
    · rw [show insertD (p :: rest) k v = (k, v) :: eraseD rest k by simp [insertD, hpk],
        nodupKeys_cons]
      exact ⟨not_mem_keys_eraseD rest k, nodupKeys_eraseD k h.2⟩
    · rw [show insertD (p :: rest) k v = p :: insertD rest k v by simp [insertD, hpk],
        nodupKeys_cons]
      refine ⟨fun hmem => ?_, ih h.2⟩
      rcases mem_keys_insertD hmem with h1 | h1
      · exact hpk h1
      · exact h.1 h1

theorem nodupKeys_renameStep {d : Dict} (k w : String) (h : NodupKeys d) :
    NodupKeys (renameStep d k w) := by
  unfold renameStep
  cases lookup? d k with
  | none => exact h
  | some v =>
    by_cases hkw : k = w
    · simpa [hkw]
    · simpa [hkw] using nodupKeys_eraseD k (nodupKeys_insertD w v h)

theorem nodupKeys_applyRenames {d : Dict} (am : List (String × String)) (h : NodupKeys d) :
    NodupKeys (applyRenames am d) := by
  induction am generalizing d with
  | nil => exact h
  | cons p rest ih => exact ih (nodupKeys_renameStep p.1 p.2 h)

theorem keys_dropNone_sublist (d : Dict) : (keys (dropNone d)).Sublist (keys d) := by
  induction d with
  | nil => simp [dropNone, keys]
  | cons p rest ih =>
    by_cases hp : p.2 = Value.none
    · rw [show dropNone (p :: rest) = dropNone rest by simp [dropNone, hp], keys_cons]
      exact ih.trans (List.sublist_cons_self _ _)
    · rw [show dropNone (p :: rest) = p :: dropNone rest by simp [dropNone, hp], keys_cons, keys_cons]
      exact ih.cons₂ _

theorem lookup_dropNone {d : Dict} (h : NodupKeys d) (x : String) :
    lookup? (dropNone d) x =
      Option.bind (lookup? d x) (fun v => if v = Value.none then Option.none else Option.some v) := by
  induction d with
  | nil => rfl
  | cons p rest ih =>
    rw [nodupKeys_cons] at h
    by_cases hpx : p.1 = x
    · by_cases hp : p.2 = Value.none
      · have hx : x ∉ keys (dropNone rest) := fun hm =>
          h.1 (hpx ▸ (keys_dropNone_sublist rest).subset hm)
        rw [show dropNone (p :: rest) = dropNone rest by simp [dropNone, hp]]
        simp [lookup?, hpx, hp, lookup_eq_none_of_not_mem_keys hx]
      · rw [show dropNone (p :: rest) = p :: dropNone rest by simp [dropNone, hp]]
        simp [lookup?, hpx, hp]
    · by_cases hp : p.2 = Value.none
      · rw [show dropNone (p :: rest) = dropNone rest by simp [dropNone, hp]]
        simp [lookup?, hpx, ih h.2]
      · rw [show dropNone (p :: rest) = p :: dropNone rest by simp [dropNone, hp]]
        simp [lookup?, hpx, ih h.2]

theorem applyRenames_nil (d : Dict) : applyRenames [] d = d := rfl

theorem applyRenames_cons (p : String × String) (am : List (String × String)) (d : Dict) :
    applyRenames (p :: am) d = applyRenames am (renameStep d p.1 p.2) := rfl

theorem applyRenames_append (am1 am2 : List (String × String)) (d : Dict) :
    applyRenames (am1 ++ am2) d = applyRenames am2 (applyRenames am1 d) :=
  List.foldl_append ..

theorem lookup_renameStep_untouched {d : Dict} {k w x : String}
    (hk : k = w ∨ (k ≠ x ∧ w ≠ x)) : lookup? (renameStep d k w) x = lookup? d x := by
  unfold renameStep
  cases lookup? d k with
  | none => rfl
  | some v =>
    rcases hk with hk | hk
    · simp [hk]
    · by_cases hkw : k = w
      · simp [hkw]
      · have hxk : ¬ x = k := fun h => hk.1 h.symm
        have hxw : ¬ x = w := fun h => hk.2 h.symm
        simp [hkw, lookup_eraseD, lookup_insertD, hxk, hxw]

theorem lookup_applyRenames_untouched {am : List (String × String)} {x : String} (d : Dict)
    (h : untouchedB am x = true) : lookup? (applyRenames am d) x = lookup? d x := by
  induction am generalizing d with
  | nil => rfl
  | cons p rest ih =>
    rw [untouchedB, List.all_cons, Bool.and_eq_true] at h
    have hp : p.1 = p.2 ∨ (p.1 ≠ x ∧ p.2 ≠ x) := by
      rcases Bool.or_eq_true_iff.mp h.1 with h1 | h1
      · exact Or.inl (by simpa using h1)
      · rw [Bool.and_eq_true] at h1
        exact Or.inr ⟨by simpa using h1.1, by simpa using h1.2⟩
    rw [applyRenames_cons, ih (renameStep d p.1 p.2) h.2, lookup_renameStep_untouched hp]

theorem lookup_renameStep_absent {d : Dict} {k w x : String}
    (hk : k = w ∨ w ≠ x) (h0 : lookup? d x = Option.none) :
    lookup? (renameStep d k w) x = Option.none := by
  unfold renameStep
  cases hdk : lookup? d k with
  | none => exact h0
  | some v =>
    rcases hk with hk | hk
    · simp [hk, h0]
    · by_cases hkw : k = w
      · simp [hkw, h0]
      · by_cases hxk : x = k
        · simp [hkw, lookup_eraseD, hxk]
        · have hxw : ¬ x = w := fun h => hk h.symm
          simp [hkw, lookup_eraseD, lookup_insertD, hxk, hxw, h0]

theorem lookup_applyRenames_absent {am : List (String × String)} {x : String} (d : Dict)
    (h : notWrittenB am x = true) (h0 : lookup? d x = Option.none) :
    lookup? (applyRenames am d) x = Option.none := by
  induction am generalizing d with
  | nil => exact h0
  | cons p rest ih =>
    rw [notWrittenB, List.all_cons, Bool.and_eq_true] at h
    have hp : p.1 = p.2 ∨ p.2 ≠ x := by
      rcases Bool.or_eq_true_iff.mp h.1 with h1 | h1
      · exact Or.inl (by simpa using h1)
      · exact Or.inr (by simpa using h1)
    rw [applyRenames_cons]
    exact ih (renameStep d p.1 p.2) h.2 (lookup_renameStep_absent hp h0)

theorem untouchedB_of_notInTable {am : List (String × String)} {x : String}
    (h : notInTable am x = true) : untouchedB am x = true := by
  rw [notInTable, List.all_eq_true] at h
  rw [untouchedB, List.all_eq_true]
  intro p hp
  have h2 := h p hp
  rw [Bool.and_eq_true] at h2
  rw [Bool.or_eq_true_iff, Bool.and_eq_true]
  exact Or.inr h2

theorem applyRenames_afterOk {rest : List (String × String)} {K W : String} {v : Value}
    (st : Dict) (hKW : K ≠ W) (hok : afterRenameOk rest K W = true)
    (hK : lookup? st K = Option.none) (hW : lookup? st W = Option.some v) :
    lookup? (applyRenames rest st) K = Option.none ∧
      lookup? (applyRenames rest st) W = Option.some v := by
  induction rest generalizing st with
  | nil => exact ⟨hK, hW⟩
  | cons p rest ih =>
    rw [afterRenameOk, Bool.and_eq_true] at hok
    have hp : p.1 = p.2 ∨ (p.2 ≠ K ∧ p.1 ≠ W ∧ p.2 ≠ W) := by
      rcases Bool.or_eq_true_iff.mp hok.1 with h1 | h1
      · exact Or.inl (by simpa using h1)
      · rw [Bool.and_eq_true, Bool.and_eq_true] at h1
        exact Or.inr ⟨by simpa using h1.1.1, by simpa using h1.1.2, by simpa using h1.2⟩
    rw [applyRenames_cons]
    have hstep : lookup? (renameStep st p.1 p.2) K = Option.none ∧
        lookup? (renameStep st p.1 p.2) W = Option.some v := by
      unfold renameStep
      cases hdk : lookup? st p.1 with
      | none => exact ⟨hK, hW⟩
      | some u =>
        by_cases hkw : p.1 = p.2
        · simpa [hkw] using ⟨hK, hW⟩
        · rcases hp with hp | hp
          · exact absurd hp hkw
          · have hp1K : ¬ p.1 = K := fun h => by
              rw [h] at hdk; rw [hdk] at hK; exact Option.noConfusion hK
            have hKp1 : ¬ K = p.1 := fun h => hp1K h.symm
            have hKp2 : ¬ K = p.2 := fun h => hp.1 h.symm
            have hWp1 : ¬ W = p.1 := fun h => hp.2.1 h.symm
            have hWp2 : ¬ W = p.2 := fun h => hp.2.2 h.symm
            constructor
            · simp [hkw, lookup_eraseD, lookup_insertD, hKp1, hKp2, hK]
            · simp [hkw, lookup_eraseD, lookup_insertD, hWp1, hWp2, hW]
    exact ih _ hok.2 hstep.1 hstep.2

theorem applyRenames_renameOk {am : List (String × String)} {K W : String} {v : Value}
    (P : Dict) (hKW : K ≠ W) (hok : renameOkFor am K W = true)
    (hv : lookup? P K = Option.some v) :
    lookup? (applyRenames am P) K = Option.none ∧
      lookup? (applyRenames am P) W = Option.some v := by
  induction am generalizing P with
  | nil => exact absurd hok (by simp [renameOkFor])
  | cons p rest ih =>
    rw [renameOkFor] at hok
    by_cases hpKW : p.1 = K ∧ p.2 = W
    · rw [if_pos hpKW] at hok
      rw [applyRenames_cons]
      have hWK : ¬ W = K := fun h => hKW h.symm
      have hstep : renameStep P p.1 p.2 = eraseD (insertD P W v) K := by
        simp [renameStep, hpKW.1, hpKW.2, hv, hKW]
      rw [hstep]
      refine applyRenames_afterOk _ hKW hok ?_ ?_
      · simp [lookup_eraseD]
      · simp [lookup_eraseD, lookup_insertD, hWK]
    · rw [if_neg hpKW, Bool.and_eq_true] at hok
      have hp : p.1 = p.2 ∨ (p.1 ≠ K ∧ p.2 ≠ K) := by
        rcases Bool.or_eq_true_iff.mp hok.1 with h1 | h1
        · exact Or.inl (by simpa using h1)
        · rw [Bool.and_eq_true] at h1
          exact Or.inr ⟨by simpa using h1.1, by simpa using h1.2⟩
      rw [applyRenames_cons]
      refine ih _ hok.2 ?_
      calc lookup? (renameStep P p.1 p.2) K = lookup? P K :=
            lookup_renameStep_untouched (by tauto)
        _ = Option.some v := hv

theorem applyRenames_eq_self {am : List (String × String)} (P : Dict)
    (h : ∀ p ∈ am, p.1 ≠ p.2 → lookup? P p.1 = Option.none) :
    applyRenames am P = P := by
  induction am with
  | nil => rfl
  | cons p rest ih =>
    rw [applyRenames_cons]
    have hstep : renameStep P p.1 p.2 = P := by
      unfold renameStep
      cases hdk : lookup? P p.1 with
      | none => rfl
      | some u =>
        by_cases hkw : p.1 = p.2
        · simp [hkw]
        · rw [h p (List.mem_cons_self p rest) hkw] at hdk
          exact Option.noConfusion hdk
    rw [hstep]
    exact ih fun q hq => h q (List.mem_cons_of_mem p hq)

theorem dropNone_eq_self {d : Dict} (h : ∀ p ∈ d, p.2 ≠ Value.none) : dropNone d = d := by
  induction d with
  | nil => rfl
  | cons p rest ih =>
    rw [show dropNone (p :: rest) = p :: dropNone rest by
      simp [dropNone, h p (List.mem_cons_self p rest)]]
    rw [ih fun q hq => h q (List.mem_cons_of_mem p hq)]

theorem mem_dropNone {d : Dict} {p : String × Value} (h : p ∈ dropNone d) :
    p ∈ d ∧ p.2 ≠ Value.none := by
  induction d with
  | nil => exact absurd h (by simp [dropNone])
  | cons q rest ih =>
    by_cases hq : q.2 = Value.none
    · rw [show dropNone (q :: rest) = dropNone rest by simp [dropNone, hq]] at h
      exact ⟨List.mem_cons_of_mem q (ih h).1, (ih h).2⟩
    · rw [show dropNone (q :: rest) = q :: dropNone rest by simp [dropNone, hq]] at h
      rcases List.mem_cons.mp h with h | h
      · exact ⟨List.mem_cons.mpr (Or.inl h), h ▸ hq⟩
      · exact ⟨List.mem_cons_of_mem q (ih h).1, (ih h).2⟩

theorem lookup_merge_args (kwargs : Dict) (keyword entity_id sort include_test page size locale : Value)
    (x : String) :
    lookup? (merge_args kwargs keyword entity_id sort include_test page size locale) x =
      if x = "locale" then Option.some locale
      else if x = "size" then Option.some size
      else if x = "page" then Option.some page
      else if x = "include_test" then Option.some include_test
      else if x = "sort" then Option.some sort
      else if x = "id" then Option.some entity_id
      else if x = "keyword" then Option.some keyword
      else lookup? kwargs x := by
  simp [merge_args, lookup_insertD]

theorem nodupKeys_merge_args (kwargs : Dict) (keyword entity_id sort include_test page size locale : Value)
    (h : NodupKeys kwargs) :
    NodupKeys (merge_args kwargs keyword entity_id sort include_test page size locale) :=
  nodupKeys_insertD _ _ (nodupKeys_insertD _ _ (nodupKeys_insertD _ _ (nodupKeys_insertD _ _
    (nodupKeys_insertD _ _ (nodupKeys_insertD _ _ (nodupKeys_insertD _ _ h))))))

theorem attr_map_entries_ok : ∀ p ∈ attr_map, renameOkFor attr_map p.1 p.2 = true := by decide

/-- C7: normalization is idempotent on already-normalized mappings: if `P` has
no key that is a semantic key of the Rename Table with a different wire name,
and no `None` value, then `_search_params` returns `P` unchanged. -/
theorem claim_C7_normalize_idempotent (P : Dict)
    (h1 : ∀ p ∈ attr_map, p.1 ≠ p.2 → lookup? P p.1 = Option.none)
    (h2 : ∀ p ∈ P, p.2 ≠ Value.none) :
    search_params P = P := by
  rw [search_params, searchParamsAux, applyRenames_eq_self P h1, dropNone_eq_self h2]

/-- Witness for C7 at the concrete mapping `{keyword: "ko", page: 1}`. -/
theorem claim_C7_witness :
    search_params [("keyword", Value.str "ko"), ("page", Value.int 1)] =
      [("keyword", Value.str "ko"), ("page", Value.int 1)] :=
  claim_C7_normalize_idempotent [("keyword", Value.str "ko"), ("page", Value.int 1)]
    (by decide) (by decide)

/-- C6: `by_id` on any resource query calls the collaborator fetch-by-id with
exactly the resource path segment of that query type and the given identifier, and
returns `from_json` of the collaborator's JSON unmodified; the resource path
segments are the class attributes of the seven query classes. -/
theorem claim_C6_by_id_delegation :
    (∀ (J M : Type) (get_by_id : String → String → J) (from_json : J → M)
        (q : QueryType) (s : String),
      by_id q get_by_id from_json s = from_json (get_by_id (resource q) s)) ∧
    resource QueryType.events = "events" ∧
    resource QueryType.venues = "venues" ∧
    resource QueryType.attractions = "attractions" ∧
    resource QueryType.classifications = "classifications" ∧
    resource QueryType.segments = "classifications/segments" ∧
    resource QueryType.genres = "classifications/genres" ∧
    resource QueryType.subgenres = "classifications/subgenres" :=
  ⟨fun _ _ _ _ _ _ => rfl, rfl, rfl, rfl, rfl, rfl, rfl, rfl⟩

/-- C5 counterexample: `SegmentQuery`, `GenreQuery` and `SubGenreQuery` define
no `find` method (and `BaseQuery` has none to inherit), so it is false that
every one of the seven resource query types exposes a `find` operation. -/
theorem claim_C5_counterexample :
    definesFind QueryType.segments = false ∧
    definesFind QueryType.genres = false ∧
    definesFind QueryType.subgenres = false ∧
    ¬ (∀ q : QueryType, definesFind q = true) := by decide

/-- C5 (amended): exactly four of the seven resource query types — events,
venues, attractions and classifications — expose a `find` operation, and each
of those four forwards its named parameters into the shared request assembly
`BaseQuery._get`; segments, genres and subgenres expose no `find`. -/
theorem claim_C5_find_surface :
    (∀ q : QueryType, definesFind q = true ↔
      (q = QueryType.events ∨ q = QueryType.venues ∨ q = QueryType.attractions ∨
        q = QueryType.classifications)) ∧
    (∀ (a b c d e f g h : Value) (kw : Dict),
      AttractionQuery.find a b c d e f g h kw =
        BaseQuery._get "attractions" b c a e f g h (("source", d) :: kw)) ∧
    (∀ (a b c d e f g h : Value) (kw : Dict),
      ClassificationQuery.find a b c d e f g h kw =
        BaseQuery._get "classifications" b c a e f g h (("source", d) :: kw)) ∧
    (∀ (a b c d e f g h i j : Value) (kw : Dict),
      VenueQuery.find a b c d e f g h i j kw =
        BaseQuery._get "venues" a b c g h i j
          (("state_code", d) :: ("country_code", e) :: ("source", f) :: kw)) ∧
    (∀ (s l r u b1 b2 b3 b4 b5 b6 b7 b8 b9 b10 b11 b12 b13 b14 b15 b16 b17 b18 kw2 ei so it pg sz lo : Value)
        (kw : Dict),
      EventQuery.find s l r u b1 b2 b3 b4 b5 b6 b7 b8 b9 b10 b11 b12 b13 b14 b15 b16 b17 b18 kw2 ei so it pg sz lo kw =
        BaseQuery._get "events" kw2 ei s it pg sz lo
          (("latlong", l) :: ("radius", r) :: ("unit", u) ::
           ("start_date_time", b1) :: ("end_date_time", b2) ::
           ("onsale_start_date_time", b3) :: ("onsale_end_date_time", b4) ::
           ("country_code", b5) :: ("state_code", b6) ::
           ("venue_id", b7) :: ("attraction_id", b8) ::
           ("segment_id", b9) :: ("segment_name", b10) ::
           ("classification_name", b11) :: ("classification_id", b12) ::
           ("market_id", b13) :: ("promoter_id", b14) :: ("dma_id", b15) ::
           ("include_tba", b16) :: ("include_tbd", b17) ::
           ("source", so) :: ("client_visibility", b18) :: kw)) := by
  refine ⟨by decide, fun a b c d e f g h kw => rfl, fun a b c d e f g h kw => rfl,
    fun a b c d e f g h i j kw => rfl, ?_⟩
  intro s l r u b1 b2 b3 b4 b5 b6 b7 b8 b9 b10 b11 b12 b13 b14 b15 b16 b17 b18 kw2 ei so it pg sz lo kw
  rfl

/-- C8: `by_location(33.7, -84.4, radius=5)` on the events query invokes
`find` with `latlong = "33.7,-84.4"` and `radius = "5"` (both numeric inputs
coerced to text by `str()`); all other find parameters keep their `None`
defaults and the given `unit`/`sort` are passed along. -/
theorem claim_C8_by_location_coordinates :
    EventQuery.by_location (StrArg.dec 33 7) (StrArg.dec (-84) 4) (StrArg.int 5)
        (Value.str "miles") (Value.str "relevance,desc") [] =
      EventQuery.find (Value.str "relevance,desc") (Value.str "33.7,-84.4")
        (Value.str "5") (Value.str "miles")
        Value.none Value.none Value.none Value.none Value.none
        Value.none Value.none Value.none Value.none Value.none
        Value.none Value.none Value.none Value.none Value.none
        Value.none Value.none Value.none Value.none Value.none
        Value.none Value.none Value.none Value.none Value.none
        [] := by
  rfl

/-- C4: when a rename table contains two entries `(k1, W)` and, later in
iteration order, `(k2, W)` — a wire-key collision — and both semantic keys are
present (set) in `P`, normalization raises no error (it is a total function)
and the wire key `W` ends up bound to the value of `k2`, the key whose rename
is applied last.  Stated over an arbitrary rename table because the rename
stage of `_search_params` is parametric in it. -/
theorem claim_C4_collision_last_write_wins
    (am1 am2 am3 : List (String × String)) (k1 k2 W : String) (P : Dict) (v1 v2 : Value)
    (h12 : k1 ≠ k2) (h1W : k1 ≠ W) (h2W : k2 ≠ W)
    (hv1 : lookup? P k1 = Option.some v1) (hv2 : lookup? P k2 = Option.some v2)
    (hnn : v2 ≠ Value.none) (hnd : NodupKeys P)
    (hpre : untouchedB (am1 ++ (k1, W) :: am2) k2 = true)
    (hpost : afterRenameOk am3 k2 W = true) :
    lookup? (applyRenames (am1 ++ (k1, W) :: am2 ++ (k2, W) :: am3) P) W = Option.some v2 ∧
    lookup? (searchParamsAux (am1 ++ (k1, W) :: am2 ++ (k2, W) :: am3) P) W = Option.some v2 := by
  have hsplit : am1 ++ (k1, W) :: am2 ++ (k2, W) :: am3 =
      (am1 ++ (k1, W) :: am2) ++ ((k2, W) :: am3) := by
    simp [List.append_assoc]
  have hW2 : ¬ W = k2 := fun h => h2W h.symm
  have hst1 : lookup? (applyRenames (am1 ++ (k1, W) :: am2) P) k2 = Option.some v2 := by
    rw [lookup_applyRenames_untouched _ hpre, hv2]
  have hstep : renameStep (applyRenames (am1 ++ (k1, W) :: am2) P) k2 W =
      eraseD (insertD (applyRenames (am1 ++ (k1, W) :: am2) P) W v2) k2 := by
    simp [renameStep, hst1, h2W]
  have hmain : lookup? (applyRenames (am1 ++ (k1, W) :: am2 ++ (k2, W) :: am3) P) W
      = Option.some v2 := by
    rw [hsplit, applyRenames_append, applyRenames_cons, hstep]
    refine (applyRenames_afterOk _ h2W hpost ?_ ?_).2
    · simp [lookup_eraseD]
    · simp [lookup_eraseD, lookup_insertD, hW2]
  refine ⟨hmain, ?_⟩
  rw [searchParamsAux, lookup_dropNone (nodupKeys_applyRenames _ hnd), hmain]
  simp [hnn]

/-- Witness for C4: with the table `[(a, w), (b, w)]` and `P = {a: "1", b: "2"}`,
the wire key `w` ends up bound to `"2"`, the value of the second entry. -/
theorem claim_C4_witness :
    lookup? (applyRenames [("a", "w"), ("b", "w")] [("a", Value.str "1"), ("b", Value.str "2")]) "w"
      = Option.some (Value.str "2") ∧
    lookup? (searchParamsAux [("a", "w"), ("b", "w")] [("a", Value.str "1"), ("b", Value.str "2")]) "w"
      = Option.some (Value.str "2") :=
  claim_C4_collision_last_write_wins [] [] [] "a" "b" "w"
    [("a", Value.str "1"), ("b", Value.str "2")] (Value.str "1") (Value.str "2")
    (by decide) (by decide) (by decide) (by decide) (by decide) (by decide)
    (by decide) (by decide) (by decide)

theorem params_mk (r : String) (d : Dict) : (SearchRequest.mk r d).params = d := rfl

theorem get_params (res : String) (keyword entity_id sort include_test page size locale : Value)
    (kwargs : Dict) :
    (BaseQuery._get res keyword entity_id sort include_test page size locale kwargs).params =
      search_params (merge_args kwargs keyword entity_id sort include_test page size locale) := by
  rw [BaseQuery._get, params_mk]

/-- C1: for every call to the shared request assembly `_get` on the events
resource with `entity_id = "abc123"` (with arbitrary other universal
parameters and extra kwargs — which, by Python keyword binding, cannot
themselves contain the named parameter `entity_id`), the parameter mapping
handed to the `_search` of the collaborator binds the wire key `id` to `"abc123"`
and does not contain the key `entity_id`. -/
theorem claim_C1_shared_assembly_sends_wire_id
    (kwargs : Dict) (keyword sort include_test page size locale : Value)
    (hnd : NodupKeys kwargs)
    (hent : lookup? kwargs "entity_id" = Option.none) :
    lookup? ((BaseQuery._get "events" keyword (Value.str "abc123") sort include_test
        page size locale kwargs).params) "id" = Option.some (Value.str "abc123") ∧
    lookup? ((BaseQuery._get "events" keyword (Value.str "abc123") sort include_test
        page size locale kwargs).params) "entity_id" = Option.none := by
  have hmnd : NodupKeys (merge_args kwargs keyword (Value.str "abc123") sort include_test
      page size locale) :=
    nodupKeys_merge_args kwargs keyword (Value.str "abc123") sort include_test page size locale hnd
  have hid : lookup? (merge_args kwargs keyword (Value.str "abc123") sort include_test
      page size locale) "id" = Option.some (Value.str "abc123") := by
    simp [lookup_merge_args]
  have hent2 : lookup? (merge_args kwargs keyword (Value.str "abc123") sort include_test
      page size locale) "entity_id" = Option.none := by
    simp [lookup_merge_args, hent]
  have huid : untouchedB attr_map "id" = true := by decide
  have hwent : notWrittenB attr_map "entity_id" = true := by decide
  have h1 : lookup? (applyRenames attr_map (merge_args kwargs keyword (Value.str "abc123")
      sort include_test page size locale)) "id" = Option.some (Value.str "abc123") := by
    rw [lookup_applyRenames_untouched _ huid, hid]
  have h2 : lookup? (applyRenames attr_map (merge_args kwargs keyword (Value.str "abc123")
      sort include_test page size locale)) "entity_id" = Option.none :=
    lookup_applyRenames_absent _ hwent hent2
  rw [get_params]
  constructor
  · rw [search_params, searchParamsAux, lookup_dropNone (nodupKeys_applyRenames _ hmnd), h1]
    simp
  · rw [search_params, searchParamsAux, lookup_dropNone (nodupKeys_applyRenames _ hmnd), h2]
    rfl

/-- Witness for C1: the bare call with `entity_id = "abc123"` and no extras. -/
theorem claim_C1_witness :
    lookup? ((BaseQuery._get "events" Value.none (Value.str "abc123") Value.none Value.none
        Value.none Value.none Value.none []).params) "id" = Option.some (Value.str "abc123") ∧
    lookup? ((BaseQuery._get "events" Value.none (Value.str "abc123") Value.none Value.none
        Value.none Value.none Value.none []).params) "entity_id" = Option.none :=
  claim_C1_shared_assembly_sends_wire_id [] Value.none Value.none Value.none Value.none
    Value.none Value.none (by decide) (by decide)

/-- C2 counterexample: in `P = {venueId: "", venue_id: "x"}` the key `venueId`
is present with a falsy (but not `None`) value and has no Rename Table entry of
its own (so it is not renamed away), yet normalization does not preserve its
value: the rename `venue_id → venueId` overwrites it with `"x"`. -/
theorem claim_C2_counterexample :
    lookup? [("venueId", Value.str ""), ("venue_id", Value.str "x")] "venueId"
      = Option.some (Value.str "") ∧
    falsy (Value.str "") = true ∧ Value.str "" ≠ Value.none ∧
    attr_map.all (fun p => p.1 != "venueId" || p.1 == p.2) = true ∧
    lookup? (search_params [("venueId", Value.str ""), ("venue_id", Value.str "x")]) "venueId"
      = Option.some (Value.str "x") := by decide

/-- C2 (amended): normalization never outputs a `None`-valued key, and every
key whose value is present but falsy is preserved with its value provided it
is neither renamed away nor written over by the rename of another key (i.e. it
appears in no non-identity Rename Table entry, on either side). -/
theorem claim_C2_falsy_values_preserved :
    (∀ P : Dict, (search_params P).all (fun p => p.2 != Value.none) = true) ∧
    (∀ (P : Dict) (K : String) (v : Value), NodupKeys P → lookup? P K = Option.some v →
      v ≠ Value.none → falsy v = true → untouchedB attr_map K = true →
      lookup? (search_params P) K = Option.some v) := by
  constructor
  · intro P
    rw [List.all_eq_true]
    intro p hp
    have := (mem_dropNone (d := applyRenames attr_map P) hp).2
    simpa using this
  · intro P K v hnd hv hnn _hf hu
    have h1 : lookup? (applyRenames attr_map P) K = Option.some v := by
      rw [lookup_applyRenames_untouched _ hu, hv]
    rw [search_params, searchParamsAux, lookup_dropNone (nodupKeys_applyRenames _ hnd), h1]
    simp [hnn]

/-- Witness for C2 at `P = {page: 0}`: `0` is falsy but survives with its
value, and the output is `None`-free. -/
theorem claim_C2_witness :
    (search_params [("page", Value.int 0)]).all (fun p => p.2 != Value.none) = true ∧
    lookup? (search_params [("page", Value.int 0)]) "page" = Option.some (Value.int 0) :=
  ⟨claim_C2_falsy_values_preserved.1 [("page", Value.int 0)],
    claim_C2_falsy_values_preserved.2 [("page", Value.int 0)] "page" (Value.int 0)
      (by decide) (by decide) (by decide) (by decide) (by decide)⟩

/-- C3 counterexample: `venue_id → venueId` is a Rename Table entry and no
other key renames to `venueId`, and `venue_id` is present (as a key) in
`P = {venue_id: None}` — yet after normalization `venueId` is absent, because
the moved value `None` is filtered by the drop step.  The conclusion of the claim
"`W` is present bound to the value `P` had at `K`" therefore fails. -/
theorem claim_C3_counterexample :
    ("venue_id", "venueId") ∈ attr_map ∧ "venue_id" ≠ "venueId" ∧
    lookup? [("venue_id", Value.none)] "venue_id" = Option.some Value.none ∧
    attr_map.all (fun p => p.2 != "venueId" || p.1 == "venue_id") = true ∧
    lookup? (search_params [("venue_id", Value.none)]) "venue_id" = Option.none ∧
    lookup? (search_params [("venue_id", Value.none)]) "venueId" = Option.none := by decide

/-- C3 (amended): for every Rename Table entry `K → W` with `K ≠ W` and every
mapping `P` in which `K` is present with a set (non-`None`) value, after
normalization `K` is absent and `W` is bound to that value.  (For the
modelled `attr_map` no two entries share a wire key, so the collision
proviso holds automatically.) -/
theorem claim_C3_rename_moves_value (K W : String) (P : Dict) (v : Value)
    (hmem : (K, W) ∈ attr_map) (hKW : K ≠ W) (hnd : NodupKeys P)
    (hv : lookup? P K = Option.some v) (hnn : v ≠ Value.none) :
    lookup? (search_params P) K = Option.none ∧
    lookup? (search_params P) W = Option.some v := by
  have hok : renameOkFor attr_map K W = true := attr_map_entries_ok (K, W) hmem
  have h := applyRenames_renameOk P hKW hok hv
  have hnda := nodupKeys_applyRenames (d := P) attr_map hnd
  constructor
  · rw [search_params, searchParamsAux, lookup_dropNone hnda, h.1]
    rfl
  · rw [search_params, searchParamsAux, lookup_dropNone hnda, h.2]
    simp [hnn]

/-- Witness for C3 at `P = {venue_id: "v1"}`. -/
theorem claim_C3_witness :
    lookup? (search_params [("venue_id", Value.str "v1")]) "venue_id" = Option.none ∧
    lookup? (search_params [("venue_id", Value.str "v1")]) "venueId"
      = Option.some (Value.str "v1") :=
  claim_C3_rename_moves_value "venue_id" "venueId" [("venue_id", Value.str "v1")]
    (Value.str "v1") (by decide) (by decide) (by decide) (by decide) (by decide)

/-- C9: a key that occurs nowhere in the Rename Table passes through
normalization unchanged with its value, provided the value is not `None`;
normalization is a total function, so no error is possible on unknown keys. -/
theorem claim_C9_unknown_keys_pass_through (P : Dict) (K : String) (v : Value)
    (hnd : NodupKeys P) (hK : notInTable attr_map K = true)
    (hv : lookup? P K = Option.some v) (hnn : v ≠ Value.none) :
    lookup? (search_params P) K = Option.some v := by
  have h1 : lookup? (applyRenames attr_map P) K = Option.some v := by
    rw [lookup_applyRenames_untouched _ (untouchedB_of_notInTable hK), hv]
  rw [search_params, searchParamsAux, lookup_dropNone (nodupKeys_applyRenames _ hnd), h1]
  simp [hnn]

/-- Witness for C9 at the unknown caller-defined filter `postalCode`. -/
theorem claim_C9_witness :
    lookup? (search_params [("postalCode", Value.str "30307")]) "postalCode"
      = Option.some (Value.str "30307") :=
  claim_C9_unknown_keys_pass_through [("postalCode", Value.str "30307")] "postalCode"
    (Value.str "30307") (by decide) (by decide) (by decide) (by decide)

/-- C10: in `_get` the merged mapping always binds the key `id` to the
`entity_id` named parameter, overwriting any `id` supplied through the
kwargs passthrough; in particular, when `entity_id` is omitted (`None`) and
kwargs carries `id = v` with `v` set, `id` is replaced by `None`, dropped by
normalization, and `v` never reaches the search call of the collaborator. -/
theorem claim_C10_kwargs_id_overwritten
    (res : String) (kwargs : Dict) (keyword entity_id sort include_test page size locale : Value)
    (v : Value) (hnd : NodupKeys kwargs)
    (hv : lookup? kwargs "id" = Option.some v) (hnn : v ≠ Value.none) :
    lookup? (merge_args kwargs keyword entity_id sort include_test page size locale) "id"
      = Option.some entity_id ∧
    lookup? ((BaseQuery._get res keyword Value.none sort include_test page size locale
        kwargs).params) "id" = Option.none := by
  constructor
  · simp [lookup_merge_args]
  · have hmnd : NodupKeys (merge_args kwargs keyword Value.none sort include_test
        page size locale) :=
      nodupKeys_merge_args kwargs keyword Value.none sort include_test page size locale hnd
    have hid : lookup? (merge_args kwargs keyword Value.none sort include_test page size
        locale) "id" = Option.some Value.none := by
      simp [lookup_merge_args]
    have huid : untouchedB attr_map "id" = true := by decide
    have h1 : lookup? (applyRenames attr_map (merge_args kwargs keyword Value.none sort
        include_test page size locale)) "id" = Option.some Value.none := by
      rw [lookup_applyRenames_untouched _ huid, hid]
    rw [get_params, search_params, searchParamsAux,
      lookup_dropNone (nodupKeys_applyRenames _ hmnd), h1]
    rfl

/-- Witness for C10: `kwargs = {id: "sneaky"}` with `entity_id` omitted. -/
theorem claim_C10_witness :
    lookup? (merge_args [("id", Value.str "sneaky")] Value.none (Value.str "e1") Value.none
        Value.none Value.none Value.none Value.none) "id" = Option.some (Value.str "e1") ∧
    lookup? ((BaseQuery._get "events" Value.none Value.none Value.none Value.none Value.none
        Value.none Value.none [("id", Value.str "sneaky")]).params) "id" = Option.none :=
  claim_C10_kwargs_id_overwritten "events" [("id", Value.str "sneaky")] Value.none
    (Value.str "e1") Value.none Value.none Value.none Value.none Value.none
    (Value.str "sneaky") (by decide) (by decide) (by decide)

end Ticketpy
